import Mathlib

/-!
Formal model of the layout-to-structure inference engine in src/main.py.

The PDF decoder (PyMuPDF) is out of scope: a page is modelled as the list of
block dictionaries it would deliver.  Dictionary fields that the code reads
with a direct index are modelled as Option fields read through getKey, which
fails (models an uncaught KeyError) when the field is missing; fields read
with dict.get are modelled with Option.getD and the same default the code
passes.  Python floats are modelled as exact rationals, and the builtin
round (round half to even) as pythonRound.  Python str.strip is modelled by
pystrip over the character list, with the ASCII whitespace characters that
Python treats as whitespace.
-/

namespace PdfToMd

/-- Python round: nearest integer, ties go to the even integer.  The floor is
computed by floor division of the numerator by the denominator so that the
definition evaluates by kernel reduction. -/
def pythonRound (q : ℚ) : ℤ :=
  let f : ℤ := q.num.fdiv q.den
  let r : ℚ := q - (f : ℚ)
  if r < 1/2 then f
  else if 1/2 < r then f + 1
  else if f % 2 = 0 then f else f + 1

/-- Characters stripped by Python str.strip and matched by the regex class \s. -/
def pyWs (c : Char) : Bool :=
  c = ' ' || c = '\t' || c = '\n' || c = '\r' || c = '\x0b' || c = '\x0c'

/-- Strip pyWs characters from both ends of a character list. -/
def stripList (l : List Char) : List Char :=
  ((l.dropWhile pyWs).reverse.dropWhile pyWs).reverse

/-- Model of Python str.strip. -/
def pystrip (s : String) : String := ⟨stripList s.data⟩

/-- Model of Python str.endswith. -/
def pyEndsWith (s t : String) : Bool := t.data.isSuffixOf s.data

/-- Model of Python str.startswith. -/
def pyStartsWith (s t : String) : Bool := t.data.isPrefixOf s.data

/-- A span dictionary: text, size and flags entries, any of which may be absent. -/
structure Span where
  text  : Option String
  size  : Option ℚ
  flags : Option ℕ
deriving Repr, DecidableEq

/-- A line dictionary: its spans entry may be absent. -/
structure Line where
  spans : Option (List Span)
deriving Repr, DecidableEq

/-- A block dictionary: type discriminant, lines, bounding box (x0, y0, x1, y1). -/
structure Block where
  btype : Option ℤ
  lines : Option (List Line)
  bbox  : Option (ℚ × ℚ × ℚ × ℚ)
deriving Repr, DecidableEq

/-- Direct dictionary indexing: raises (models KeyError) when the key is absent. -/
def getKey {α : Type} : Option α → Except Unit α
  | some a => Except.ok a
  | none => Except.error ()

deriving instance DecidableEq for Except

/-- Counter increment: keys are kept in first-insertion order, as in Python. -/
def counterAdd : List (ℤ × ℕ) → ℤ → ℕ → List (ℤ × ℕ)
  | [], k, n => [(k, n)]
  | (a, m) :: rest, k, n =>
    if a = k then (a, m + n) :: rest else (a, m) :: counterAdd rest k n

/-- Scan for the key of largest count, keeping the earlier key on ties.  This is
what Counter.most_common yields first, since Python sorting is stable. -/
def mostCommonGo : ℤ → ℕ → List (ℤ × ℕ) → ℤ
  | k, _, [] => k
  | k, n, (a, m) :: rest => if n < m then mostCommonGo a m rest else mostCommonGo k n rest

/-- Key of the first entry of Counter.most_common, none for an empty counter. -/
def mostCommonKey : List (ℤ × ℕ) → Option ℤ
  | [] => none
  | (k, n) :: rest => some (mostCommonGo k n rest)

/-- Model of statistics.mode: the first-encountered most common value.  The
default is unreachable because the caller guards against the empty list. -/
def statMode (sizes : List ℤ) : ℤ :=
  (mostCommonKey (sizes.foldl (fun c z => counterAdd c z 1) [])).getD 10

/-- First profiler pass over one span (src/main.py lines 42 to 46): reads size,
flags and text with direct indexing and yields the rounded size. -/
def pass1Span (s : Span) : Except Unit ℤ := do
  let sz ← getKey s.size
  let _fl ← getKey s.flags
  let _tx ← getKey s.text
  pure (pythonRound sz)

/-- First profiler pass over a list of spans. -/
def pass1Spans : List Span → Except Unit (List ℤ)
  | [] => .ok []
  | s :: ss =>
    match pass1Span s with
    | .error e => .error e
    | .ok z =>
      match pass1Spans ss with
      | .error e => .error e
      | .ok zs => .ok (z :: zs)

/-- First profiler pass over one line. -/
def pass1Line (l : Line) : Except Unit (List ℤ) :=
  match l.spans with
  | none => .error ()
  | some ss => pass1Spans ss

/-- First profiler pass over a list of lines. -/
def pass1Lines : List Line → Except Unit (List ℤ)
  | [] => .ok []
  | l :: ls =>
    match pass1Line l with
    | .error e => .error e
    | .ok zs =>
      match pass1Lines ls with
      | .error e => .error e
      | .ok zss => .ok (zs ++ zss)

/-- First profiler pass over one block: only text blocks (type 0) contribute. -/
def pass1Block (b : Block) : Except Unit (List ℤ) :=
  match b.btype with
  | none => .error ()
  | some t =>
    if t = 0 then
      match b.lines with
      | none => .error ()
      | some ls => pass1Lines ls
    else .ok []

/-- The all_sizes list of determine_font_styles: one rounded size per span of
every text block, in traversal order. -/
def allSizesE : List Block → Except Unit (List ℤ)
  | [] => .ok []
  | b :: bs =>
    match pass1Block b with
    | .error e => .error e
    | .ok zs =>
      match allSizesE bs with
      | .error e => .error e
      | .ok zss => .ok (zs ++ zss)

/-- Second profiler pass over one span (src/main.py lines 56 to 58): weight the
rounded size by the stripped text length. -/
def pass2Span (c : List (ℤ × ℕ)) (s : Span) : Except Unit (List (ℤ × ℕ)) := do
  let sz ← getKey s.size
  let tx ← getKey s.text
  pure (counterAdd c (pythonRound sz) (pystrip tx).length)

/-- Second profiler pass over a list of spans. -/
def pass2Spans : List (ℤ × ℕ) → List Span → Except Unit (List (ℤ × ℕ))
  | c, [] => .ok c
  | c, s :: ss =>
    match pass2Span c s with
    | .error e => .error e
    | .ok d => pass2Spans d ss

/-- Second profiler pass over one line. -/
def pass2Line (c : List (ℤ × ℕ)) (l : Line) : Except Unit (List (ℤ × ℕ)) :=
  match l.spans with
  | none => .error ()
  | some ss => pass2Spans c ss

/-- Second profiler pass over a list of lines. -/
def pass2Lines : List (ℤ × ℕ) → List Line → Except Unit (List (ℤ × ℕ))
  | c, [] => .ok c
  | c, l :: ls =>
    match pass2Line c l with
    | .error e => .error e
    | .ok d => pass2Lines d ls

/-- Second profiler pass over one block. -/
def pass2Block (c : List (ℤ × ℕ)) (b : Block) : Except Unit (List (ℤ × ℕ)) :=
  match b.btype with
  | none => .error ()
  | some t =>
    if t = 0 then
      match b.lines with
      | none => .error ()
      | some ls => pass2Lines c ls
    else .ok c

/-- Second profiler pass over a list of blocks. -/
def pass2Blocks : List (ℤ × ℕ) → List Block → Except Unit (List (ℤ × ℕ))
  | c, [] => .ok c
  | c, b :: bs =>
    match pass2Block c b with
    | .error e => .error e
    | .ok d => pass2Blocks d bs

/-- The size_counts table of determine_font_styles: rounded size weighted by
stripped character count. -/
def sizeCountsE (blocks : List Block) : Except Unit (List (ℤ × ℕ)) :=
  pass2Blocks [] blocks

/-- Heading level assignment loop (src/main.py lines 77 to 84): assign levels
starting at the given level, stopping after level 3. -/
def assignLevelsGo : List ℤ → ℕ → List (ℤ × ℕ)
  | [], _ => []
  | s :: rest, level =>
    if level ≤ 3 then (s, level) :: assignLevelsGo rest (level + 1) else []

/-- Heading levels for a page: distinct sizes strictly above body + 1, sorted
descending, levels 1 to 3 assigned in order. -/
def headingLevelsOf (sizes : List ℤ) (body : ℤ) : List (ℤ × ℕ) :=
  assignLevelsGo
    (List.insertionSort (fun a b => b ≤ a) ((sizes.dedup).filter (fun s => body + 1 < s))) 1

/-- Model of determine_font_styles (src/main.py lines 23 to 86).  The fitz call
that fetches the block list is out of scope; the function receives the list.
The error value models an uncaught KeyError escaping the per-span loops. -/
def determineFontStyles (blocks : List Block) : Except Unit (Option ℤ × List (ℤ × ℕ)) :=
  if blocks = [] then .ok (none, [])
  else
    match allSizesE blocks with
    | .error e => .error e
    | .ok sizes =>
      if sizes = [] then .ok (none, [])
      else
        match sizeCountsE blocks with
        | .error e => .error e
        | .ok counts =>
          if counts = [] then .ok (none, [])
          else
            let bodyOpt : Option ℤ := if counts = [] then none else mostCommonKey counts
            let body : ℤ := bodyOpt.getD (if sizes = [] then 10 else statMode sizes)
            .ok (some body, headingLevelsOf sizes body)

/-- A span after the classifier reads it with defaults (src/main.py lines
147 to 155): text defaults to the empty string, size to the page body size,
flags to 0 (hence non-bold). -/
structure PSpan where
  text : String
  size : ℤ
  bold : Bool
deriving Repr, DecidableEq

/-- Apply the classifier defaults to one span. -/
def spanify (body : ℤ) (s : Span) : PSpan :=
  { text := s.text.getD ""
    size := pythonRound (s.size.getD (body : ℚ))
    bold := (s.flags.getD 0) &&& 16 != 0 }

/-- The block_text_lines structure: per line, the spans with defaults applied. -/
def blockTextLines (body : ℤ) (b : Block) : List (List PSpan) :=
  (b.lines.getD []).map (fun l => (l.spans.getD []).map (spanify body))

/-- One step of the total_size and span_count accumulation (lines 156 to 157):
size weighted by the raw text length, and the raw text length itself. -/
def accumSpan (acc : ℤ × ℕ) (p : PSpan) : ℤ × ℕ :=
  (acc.1 + p.size * (p.text.length : ℤ), acc.2 + p.text.length)

/-- total_size and span_count for a block, in traversal order. -/
def blockTotals (body : ℤ) (b : Block) : ℤ × ℕ :=
  (blockTextLines body b).foldl (fun acc ps => ps.foldl accumSpan acc) (0, 0)

/-- The block average size (lines 162 to 166): rounded weighted mean, body size
when the block has no characters. -/
def blockAvgSize (body : ℤ) (b : Block) : ℤ :=
  let t := blockTotals body b
  if 0 < t.2 then pythonRound ((t.1 : ℚ) / (t.2 : ℚ)) else body

/-- Top edge of the block bounding box, index 1 of bbox with default zeros. -/
def bTop (b : Block) : ℚ := (b.bbox.getD (0, 0, 0, 0)).2.1

/-- Bottom edge of the block bounding box, index 3 of bbox with default zeros. -/
def bBottom (b : Block) : ℚ := (b.bbox.getD (0, 0, 0, 0)).2.2.2

/-- Whether a character list starts with a whitespace character, the final
required part of the list regex. -/
def startsWithWsChar : List Char → Bool
  | [] => false
  | c :: _ => pyWs c

/-- ASCII letter, the character class of the single-letter list marker. -/
def isAsciiLetter (c : Char) : Bool :=
  (('a' ≤ c) && (c ≤ 'z')) || (('A' ≤ c) && (c ≤ 'Z'))

/-- Model of is_list_item (src/main.py lines 89 to 92): optional leading
whitespace, then a bullet character, digits followed by a dot, or a single
letter followed by a dot, then at least one whitespace character.  The three
marker alternatives start with disjoint character classes, so the regex
backtracking is irrelevant and the match is deterministic. -/
def isListItem (s : String) : Bool :=
  match s.data.dropWhile pyWs with
  | [] => false
  | c :: rest =>
    if c = '*' || c = '-' || c = '+' || c = '•' then startsWithWsChar rest
    else if c.isDigit then
      let ds := (c :: rest).takeWhile Char.isDigit
      match (c :: rest).drop ds.length with
      | '.' :: r2 => startsWithWsChar r2
      | _ => false
    else if isAsciiLetter c then
      match rest with
      | '.' :: r2 => startsWithWsChar r2
      | _ => false
    else false

/-- Classifier state: the document-wide fragment list, the open paragraph
accumulator of the current page, and the last text block bottom edge. -/
structure CState where
  out : List String
  para : String
  lastBottom : ℚ
deriving Repr, DecidableEq

/-- Flush the open paragraph (the repeated idiom at lines 178 to 180, 193 to
195, 219 to 221 and 236 to 238): when non-empty, emit it stripped with a
newline and clear it. -/
def flushPara (st : CState) : CState :=
  if st.para = "" then st else ⟨st.out ++ [pystrip st.para ++ "\n"], "", st.lastBottom⟩

/-- The fragments a flush appends, as a list. -/
def flushFrags (p : String) : List String :=
  if p = "" then [] else [pystrip p ++ "\n"]

/-- Bold reassembly for one span (lines 205 to 215): wrap a bold span in a
double asterisk pair unless the text emitted so far already ends with the
marker or the span text itself starts with it. -/
def boldStep (acc : String) (sp : PSpan) : String :=
  if sp.bold then
    if !pyEndsWith acc "**" && !pyStartsWith sp.text "**" then acc ++ "**" ++ sp.text ++ "**"
    else acc ++ sp.text
  else acc ++ sp.text

/-- The processed_line of one line: bold reassembly over its spans. -/
def assembleLine (ps : List PSpan) : String := ps.foldl boldStep ""

/-- The raw concatenated text of one line (line 203). -/
def lineRaw (ps : List PSpan) : String := String.join (ps.map (fun p => p.text))

/-- Per-line handling of a non-heading block (lines 201 to 230): a list item
flushes the paragraph and is emitted alone; other non-blank lines accumulate
into the paragraph with a single space separator. -/
def lineStep (st : CState) (ps : List PSpan) : CState :=
  let raw := lineRaw ps
  let processed := assembleLine ps
  if isListItem raw then
    let st1 := flushPara st
    { st1 with out := st1.out ++ [pystrip processed ++ "\n"] }
  else if pystrip raw ≠ "" then
    { st with para :=
        (if st.para ≠ "" ∧ pyEndsWith st.para "\n" = false then st.para ++ " " else st.para)
          ++ pystrip processed }
  else st

/-- Paragraph spacing (lines 174 to 181): after the very first block of the
document, a vertical gap above seven tenths of the body size flushes the open
paragraph and emits one blank fragment, unless the fragment emitted last is
already blank. -/
def gapBreak (pn i : ℕ) (body : ℤ) (top : ℚ) (st : CState) : CState :=
  if 0 < pn ∨ 0 < i then
    if (body : ℚ) * (7 / 10) < top - st.lastBottom ∧ st.out.getLast? ≠ some "" then
      let st1 := flushPara st
      { st1 with out := st1.out ++ [""] }
    else st
  else st

/-- A run of hash marks for a heading prefix. -/
def hashes (n : ℕ) : String := ⟨List.replicate n '#'⟩

/-- The stripped concatenation of every span text of the block (lines 188
to 190). -/
def headingConcatText (body : ℤ) (b : Block) : String :=
  pystrip (String.join (((blockTextLines body b).flatten).map (fun p => p.text)))

/-- Dictionary lookup in the heading level map. -/
def lookupKey : List (ℤ × ℕ) → ℤ → Option ℕ
  | [], _ => none
  | (k, v) :: rest, x => if k = x then some v else lookupKey rest x

/-- Per-block processing of the classifier (src/main.py lines 134 to 233):
skip non-text blocks, apply the gap break, emit a heading when the average
size has a level and the text is non-empty, otherwise run the per-line list
and paragraph handling, and finally record the block bottom edge. -/
def processBlock (pn : ℕ) (body : ℤ) (hl : List (ℤ × ℕ)) (st : CState) (ib : ℕ × Block) :
    CState :=
  if ib.2.btype ≠ some 0 then st
  else
    let b := ib.2
    let st1 := gapBreak pn ib.1 body (bTop b) st
    match lookupKey hl (blockAvgSize body b) with
    | some level =>
      let ht := headingConcatText body b
      if ht ≠ "" then
        let st2 := flushPara st1
        { out := st2.out ++ [hashes level ++ " " ++ ht ++ "\n"], para := st2.para,
          lastBottom := bBottom b }
      else
        let st3 := (blockTextLines body b).foldl lineStep st1
        { st3 with lastBottom := bBottom b }
    | none =>
      let st3 := (blockTextLines body b).foldl lineStep st1
      { st3 with lastBottom := bBottom b }

/-- The page marker fragment (line 130), with the 1-indexed page number. -/
def pageMarker (pn : ℕ) : String := "\n<!-- Page " ++ toString (pn + 1) ++ " -->\n"

/-- Per-page processing (lines 111 to 238): profile the page, skip it when
the profiler yields no body size, otherwise emit the page marker, process the
blocks in order with a fresh empty paragraph accumulator, and flush whatever
paragraph remains open at the end of the page. -/
def processPage (pn : ℕ) (blocks : List Block) (out : List String) (lb : ℚ) :
    Except Unit (List String × ℚ) :=
  match determineFontStyles blocks with
  | .error e => .error e
  | .ok (none, _) => .ok (out, lb)
  | .ok (some body, hl) =>
    let st0 : CState := ⟨out ++ [pageMarker pn], "", lb⟩
    let st := blocks.enum.foldl (processBlock pn body hl) st0
    let st1 := flushPara st
    .ok (st1.out, st1.lastBottom)

/-- Process the pages in order, threading the fragment list and the last block
bottom; the open paragraph accumulator is not threaded. -/
def convertPages : List (List Block) → ℕ → List String → ℚ → Except Unit (List String × ℚ)
  | [], _, out, lb => .ok (out, lb)
  | p :: ps, pn, out, lb =>
    match processPage pn p out lb with
    | .error e => .error e
    | .ok (o, l) => convertPages ps (pn + 1) o l

/-- The whole-document fragment production of convert_pdf_to_markdown, before
the final join and newline collapsing. -/
def convertDoc (pages : List (List Block)) : Except Unit (List String × ℚ) :=
  convertPages pages 0 [] 0

/-! ### String helper lemmas -/

theorem data_append (s t : String) : (s ++ t).data = s.data ++ t.data := rfl

theorem append_ne_empty_right (s t : String) (h : t.data ≠ []) : s ++ t ≠ "" := by
  intro he
  have hd : (s ++ t).data = "".data := congrArg String.data he
  rw [data_append] at hd
  have h0 : "".data = ([] : List Char) := rfl
  rw [h0] at hd
  rcases List.append_eq_nil.mp hd with ⟨_, h2⟩
  exact h h2

theorem append_newline_ne_empty (s : String) : s ++ "\n" ≠ "" :=
  append_ne_empty_right s "\n" (by decide)

theorem pageMarker_ne_empty (pn : ℕ) : pageMarker pn ≠ "" :=
  append_ne_empty_right _ " -->\n" (by decide)

theorem dropWhile_all_iff (p : Char → Bool) (l : List Char) :
    (∀ c ∈ l.dropWhile p, p c = true) ↔ ∀ c ∈ l, p c = true := by
  constructor
  · intro h c hc
    rcases List.mem_append.mp ((List.takeWhile_append_dropWhile p l ▸ hc) : c ∈ _) with h1 | h2
    · exact List.mem_takeWhile_imp h1
    · exact h c h2
  · intro h c hc
    have hm : c ∈ l := by
      rw [← List.takeWhile_append_dropWhile (p := p) (l := l)]
      exact List.mem_append.mpr (Or.inr hc)
    exact h c hm

theorem stripList_eq_nil_iff (l : List Char) :
    stripList l = [] ↔ ∀ c ∈ l, pyWs c = true := by
  unfold stripList
  rw [List.reverse_eq_nil_iff, List.dropWhile_eq_nil_iff]
  constructor
  · intro h
    rw [← dropWhile_all_iff pyWs l]
    intro c hc
    exact h c (List.mem_reverse.mpr hc)
  · intro h c hc
    exact (dropWhile_all_iff pyWs l).mpr h c (List.mem_reverse.mp hc)

theorem string_mk_eq_empty_iff (l : List Char) : String.mk l = "" ↔ l = [] := by
  constructor
  · intro h
    exact congrArg String.data h
  · intro h
    exact h ▸ rfl

theorem pystrip_eq_empty_iff (s : String) :
    pystrip s = "" ↔ ∀ c ∈ s.data, pyWs c = true := by
  unfold pystrip
  rw [string_mk_eq_empty_iff]
  exact stripList_eq_nil_iff s.data

theorem join_data (L : List String) :
    (String.join L).data = (L.map String.data).flatten := by
  have key : ∀ (M : List String) (s : String),
      (M.foldl (fun a b => a ++ b) s).data = s.data ++ (M.map String.data).flatten := by
    intro M
    induction M with
    | nil => intro s; simp
    | cons t M ih =>
      intro s
      simp only [List.foldl_cons, List.map_cons, List.flatten_cons, ih (s ++ t), data_append,
        List.append_assoc]
  have : String.join L = L.foldl (fun a b => a ++ b) "" := rfl
  rw [this, key]
  rfl

/-! ### Counter lemmas -/

theorem counterAdd_ne_nil (c : List (ℤ × ℕ)) (k : ℤ) (n : ℕ) : counterAdd c k n ≠ [] := by
  cases c with
  | nil => simp [counterAdd]
  | cons p rest =>
    obtain ⟨a, m⟩ := p
    unfold counterAdd
    split <;> simp

theorem mostCommonGo_spec (rest : List (ℤ × ℕ)) :
    ∀ (k : ℤ) (n : ℕ), ∃ w, (mostCommonGo k n rest, w) ∈ (k, n) :: rest ∧ n ≤ w ∧
      ∀ p ∈ rest, p.2 ≤ w := by
  induction rest with
  | nil =>
    intro k n
    exact ⟨n, by simp [mostCommonGo], le_refl n, by simp⟩
  | cons q rest ih =>
    intro k n
    obtain ⟨a, m⟩ := q
    by_cases hlt : n < m
    · obtain ⟨w, hmem, hge, hall⟩ := ih a m
      refine ⟨w, ?_, le_trans (le_of_lt hlt) hge, ?_⟩
      · rw [mostCommonGo, if_pos hlt]
        rcases List.mem_cons.mp hmem with h | h
        · exact List.mem_cons_of_mem _ (by rw [h]; exact List.mem_cons_self _ _)
        · exact List.mem_cons_of_mem _ (List.mem_cons_of_mem _ h)
      · intro p hp
        rcases List.mem_cons.mp hp with h | h
        · rw [h]; exact hge
        · exact hall p h
    · obtain ⟨w, hmem, hge, hall⟩ := ih k n
      refine ⟨w, ?_, hge, ?_⟩
      · rw [mostCommonGo, if_neg hlt]
        rcases List.mem_cons.mp hmem with h | h
        · exact h ▸ List.mem_cons_self _ _
        · exact List.mem_cons_of_mem _ (List.mem_cons_of_mem _ h)
      · intro p hp
        rcases List.mem_cons.mp hp with h | h
        · rw [h]; exact le_trans (le_of_not_lt hlt) hge
        · exact hall p h

theorem mostCommonKey_spec (counts : List (ℤ × ℕ)) (h : counts ≠ []) :
    ∃ b w, mostCommonKey counts = some b ∧ (b, w) ∈ counts ∧ ∀ p ∈ counts, p.2 ≤ w := by
  cases counts with
  | nil => exact absurd rfl h
  | cons q rest =>
    obtain ⟨k, n⟩ := q
    obtain ⟨w, hmem, hge, hall⟩ := mostCommonGo_spec rest k n
    refine ⟨mostCommonGo k n rest, w, rfl, hmem, ?_⟩
    intro p hp
    rcases List.mem_cons.mp hp with hh | hh
    · rw [hh]; exact hge
    · exact hall p hh

/-! ### Bridge between the two profiler passes: whenever the first pass
succeeds, the second succeeds, and the weighted table is non-empty whenever at
least one span was seen. -/

theorem except_bind_ok {α β : Type} (a : α) (k : α → Except Unit β) :
    (Except.ok a >>= k) = k a := rfl

theorem except_bind_error {α β : Type} (k : α → Except Unit β) :
    ((Except.error () : Except Unit α) >>= k) = .error () := rfl

theorem pass2Span_of_pass1 (s : Span) (z : ℤ) (h : pass1Span s = .ok z)
    (c : List (ℤ × ℕ)) : ∃ d, pass2Span c s = .ok d ∧ d ≠ [] := by
  cases hsz : s.size with
  | none => simp [pass1Span, getKey, hsz, except_bind_error] at h
  | some sz =>
    cases hfl : s.flags with
    | none => simp [pass1Span, getKey, hsz, hfl, except_bind_ok, except_bind_error] at h
    | some fl =>
      cases htx : s.text with
      | none =>
        simp [pass1Span, getKey, hsz, hfl, htx, except_bind_ok, except_bind_error] at h
      | some tx =>
        refine ⟨counterAdd c (pythonRound sz) (pystrip tx).length, ?_, counterAdd_ne_nil _ _ _⟩
        simp [pass2Span, getKey, hsz, htx, except_bind_ok, pure, Except.pure]

theorem pass2Spans_of_pass1 :
    ∀ (ss : List Span) (zs : List ℤ), pass1Spans ss = .ok zs →
      ∀ c, ∃ d, pass2Spans c ss = .ok d ∧ (c ≠ [] → d ≠ []) ∧ (zs ≠ [] → d ≠ []) := by
  intro ss
  induction ss with
  | nil =>
    intro zs h c
    simp only [pass1Spans] at h
    injection h with h
    exact ⟨c, rfl, fun hc => hc, fun hz => absurd h.symm hz⟩
  | cons s ss ih =>
    intro zs h c
    unfold pass1Spans at h
    cases h1 : pass1Span s with
    | error e => rw [h1] at h; exact absurd h (by simp)
    | ok z =>
      rw [h1] at h
      cases h2 : pass1Spans ss with
      | error e => rw [h2] at h; exact absurd h (by simp)
      | ok zs2 =>
        rw [h2] at h
        injection h with h
        obtain ⟨d1, hd1, hd1ne⟩ := pass2Span_of_pass1 s z h1 c
        obtain ⟨d, hd, hcI, _⟩ := ih zs2 h2 d1
        have hdne : d ≠ [] := hcI hd1ne
        refine ⟨d, ?_, fun _ => hdne, fun _ => hdne⟩
        unfold pass2Spans
        rw [hd1]
        exact hd

theorem pass2Line_of_pass1 (l : Line) (zs : List ℤ) (h : pass1Line l = .ok zs)
    (c : List (ℤ × ℕ)) :
    ∃ d, pass2Line c l = .ok d ∧ (c ≠ [] → d ≠ []) ∧ (zs ≠ [] → d ≠ []) := by
  cases hs : l.spans with
  | none => rw [pass1Line, hs] at h; exact absurd h (by simp)
  | some ss =>
    rw [pass1Line, hs] at h
    obtain ⟨d, hd, hc, hz⟩ := pass2Spans_of_pass1 ss zs h c
    exact ⟨d, by rw [pass2Line, hs]; exact hd, hc, hz⟩

theorem pass2Lines_of_pass1 :
    ∀ (ls : List Line) (zs : List ℤ), pass1Lines ls = .ok zs →
      ∀ c, ∃ d, pass2Lines c ls = .ok d ∧ (c ≠ [] → d ≠ []) ∧ (zs ≠ [] → d ≠ []) := by
  intro ls
  induction ls with
  | nil =>
    intro zs h c
    simp only [pass1Lines] at h
    injection h with h
    exact ⟨c, rfl, fun hc => hc, fun hz => absurd h.symm hz⟩
  | cons l ls ih =>
    intro zs h c
    unfold pass1Lines at h
    cases h1 : pass1Line l with
    | error e => rw [h1] at h; exact absurd h (by simp)
    | ok z1 =>
      rw [h1] at h
      cases h2 : pass1Lines ls with
      | error e => rw [h2] at h; exact absurd h (by simp)
      | ok z2 =>
        rw [h2] at h
        injection h with h
        obtain ⟨d1, hd1, hc1, hz1⟩ := pass2Line_of_pass1 l z1 h1 c
        obtain ⟨d, hd, hc2, hz2⟩ := ih z2 h2 d1
        refine ⟨d, ?_, ?_, ?_⟩
        · unfold pass2Lines
          rw [hd1]
          exact hd
        · intro hc
          exact hc2 (hc1 hc)
        · intro hz
          have hne : z1 ++ z2 ≠ [] := by rw [h]; exact hz
          by_cases hz1e : z1 = []
          · have hz2e : z2 ≠ [] := by
              intro he
              exact hne (by rw [hz1e, he]; rfl)
            exact hz2 hz2e
          · exact hc2 (hz1 hz1e)

theorem pass2Block_of_pass1 (b : Block) (zs : List ℤ) (h : pass1Block b = .ok zs)
    (c : List (ℤ × ℕ)) :
    ∃ d, pass2Block c b = .ok d ∧ (c ≠ [] → d ≠ []) ∧ (zs ≠ [] → d ≠ []) := by
  cases ht : b.btype with
  | none => rw [pass1Block, ht] at h; exact absurd h (by simp)
  | some t =>
    simp only [pass1Block, ht] at h
    by_cases h0 : t = 0
    · rw [if_pos h0] at h
      cases hls : b.lines with
      | none => rw [hls] at h; exact absurd h (by simp)
      | some ls =>
        rw [hls] at h
        obtain ⟨d, hd, hc, hz⟩ := pass2Lines_of_pass1 ls zs h c
        refine ⟨d, ?_, hc, hz⟩
        simp only [pass2Block, ht, if_pos h0, hls]
        exact hd
    · rw [if_neg h0] at h
      injection h with h
      refine ⟨c, ?_, fun hc => hc, fun hz => absurd h.symm hz⟩
      simp only [pass2Block, ht, if_neg h0]

theorem pass2Blocks_of_pass1 :
    ∀ (bs : List Block) (zs : List ℤ), allSizesE bs = .ok zs →
      ∀ c, ∃ d, pass2Blocks c bs = .ok d ∧ (c ≠ [] → d ≠ []) ∧ (zs ≠ [] → d ≠ []) := by
  intro bs
  induction bs with
  | nil =>
    intro zs h c
    simp only [allSizesE] at h
    injection h with h
    exact ⟨c, rfl, fun hc => hc, fun hz => absurd h.symm hz⟩
  | cons b bs ih =>
    intro zs h c
    unfold allSizesE at h
    cases h1 : pass1Block b with
    | error e => rw [h1] at h; exact absurd h (by simp)
    | ok z1 =>
      rw [h1] at h
      cases h2 : allSizesE bs with
      | error e => rw [h2] at h; exact absurd h (by simp)
      | ok z2 =>
        rw [h2] at h
        injection h with h
        obtain ⟨d1, hd1, hc1, hz1⟩ := pass2Block_of_pass1 b z1 h1 c
        obtain ⟨d, hd, hc2, hz2⟩ := ih z2 h2 d1
        refine ⟨d, ?_, ?_, ?_⟩
        · unfold pass2Blocks
          rw [hd1]
          exact hd
        · intro hc
          exact hc2 (hc1 hc)
        · intro hz
          have hne : z1 ++ z2 ≠ [] := by rw [h]; exact hz
          by_cases hz1e : z1 = []
          · have hz2e : z2 ≠ [] := by
              intro he
              exact hne (by rw [hz1e, he]; rfl)
            exact hz2 hz2e
          · exact hc2 (hz1 hz1e)

theorem sizeCountsE_of_allSizesE (blocks : List Block) (sizes : List ℤ)
    (h : allSizesE blocks = .ok sizes) :
    ∃ counts, sizeCountsE blocks = .ok counts ∧ (sizes ≠ [] → counts ≠ []) := by
  obtain ⟨d, hd, _, hz⟩ := pass2Blocks_of_pass1 blocks sizes h []
  exact ⟨d, hd, hz⟩

/-- When the first pass yields at least one size, the profiler succeeds and
returns the most common key of the weighted table as body size, with the
heading levels computed from that body size. -/
theorem determineFontStyles_ok_of (blocks : List Block) (sizes : List ℤ)
    (h1 : allSizesE blocks = .ok sizes) (h2 : sizes ≠ []) :
    ∃ b counts w, sizeCountsE blocks = .ok counts ∧ counts ≠ [] ∧
      mostCommonKey counts = some b ∧ (b, w) ∈ counts ∧ (∀ p ∈ counts, p.2 ≤ w) ∧
      determineFontStyles blocks = .ok (some b, headingLevelsOf sizes b) := by
  have hbne : blocks ≠ [] := by
    intro he
    rw [he] at h1
    simp only [allSizesE] at h1
    injection h1 with h1
    exact h2 h1.symm
  obtain ⟨counts, hc, hcv⟩ := sizeCountsE_of_allSizesE blocks sizes h1
  have hcne : counts ≠ [] := hcv h2
  obtain ⟨b, w, hmck, hmem, hall⟩ := mostCommonKey_spec counts hcne
  refine ⟨b, counts, w, hc, hcne, hmck, hmem, hall, ?_⟩
  simp only [determineFontStyles, if_neg hbne, h1, if_neg h2, hc, if_neg hcne, hmck,
    Option.getD_some]

/-- Inversion: a profiler result with a body size determines the heading map. -/
theorem determineFontStyles_some_inv (blocks : List Block) (sizes : List ℤ) (b : ℤ)
    (hl : List (ℤ × ℕ)) (h : determineFontStyles blocks = .ok (some b, hl))
    (h1 : allSizesE blocks = .ok sizes) : hl = headingLevelsOf sizes b := by
  by_cases hb : blocks = []
  · rw [hb] at h
    have : determineFontStyles [] = .ok (none, []) := rfl
    rw [this] at h
    simp at h
  · simp only [determineFontStyles, if_neg hb, h1] at h
    by_cases hs : sizes = []
    · rw [if_pos hs] at h
      simp at h
    · cases hc : sizeCountsE blocks with
      | error e =>
        simp only [if_neg hs, hc] at h
        simp at h
      | ok counts =>
        by_cases hcn : counts = []
        · simp only [if_neg hs, hc, if_pos hcn] at h
          simp at h
        · simp only [if_neg hs, hc, if_neg hcn] at h
          simp only [Except.ok.injEq, Prod.mk.injEq, Option.some.injEq] at h
          rw [← h.1, ← h.2]

/-- Inversion: a profiler result with no body size is exactly the no-span case,
and then the heading map is empty. -/
theorem determineFontStyles_none_inv (blocks : List Block) (hl : List (ℤ × ℕ))
    (h : determineFontStyles blocks = .ok (none, hl)) :
    hl = [] ∧ allSizesE blocks = .ok [] := by
  by_cases hb : blocks = []
  · have h0 : determineFontStyles [] = .ok (none, []) := rfl
    rw [hb, h0] at h
    simp only [Except.ok.injEq, Prod.mk.injEq, true_and] at h
    exact ⟨h.symm, by rw [hb]; rfl⟩
  · cases h1 : allSizesE blocks with
    | error e =>
      simp only [determineFontStyles, if_neg hb, h1] at h
      simp at h
    | ok sizes =>
      by_cases hs : sizes = []
      · simp only [determineFontStyles, if_neg hb, h1, if_pos hs] at h
        simp only [Except.ok.injEq, Prod.mk.injEq, true_and] at h
        refine ⟨h.symm, ?_⟩
        rw [hs]
      · obtain ⟨counts, hc, hcv⟩ := sizeCountsE_of_allSizesE blocks sizes h1
        have hcne : counts ≠ [] := hcv hs
        simp only [determineFontStyles, if_neg hb, h1, if_neg hs, hc, if_neg hcne] at h
        simp at h

/-- Converse: a page whose text blocks hold no spans is reported unprocessable. -/
theorem determineFontStyles_none_of (blocks : List Block)
    (h1 : allSizesE blocks = .ok []) : determineFontStyles blocks = .ok (none, []) := by
  by_cases hb : blocks = []
  · rw [hb]; rfl
  · simp [determineFontStyles, if_neg hb, h1]

/-- A shared concrete span with all fields present. -/
def mkSpan (t : String) (sz : ℚ) : Span := ⟨some t, some sz, some 0⟩

/-- A shared concrete one-span text block with top y0 and bottom y1. -/
def mkBlock (t : String) (sz : ℚ) (y0 y1 : ℚ) : Block :=
  ⟨some 0, some [⟨some [mkSpan t sz]⟩], some (0, y0, 0, y1)⟩

/-- C1: on a page whose text blocks contain at least one span, the profiler
succeeds and the body size is a key of the character-weighted table whose
weight is maximal; moreover the weighted table is never empty on such a page,
so the claimed fallback to the unweighted mode (and then to the constant 10)
holds vacuously, which the final conjunct records. -/
theorem claim_C1 (blocks : List Block) (sizes : List ℤ)
    (h1 : allSizesE blocks = .ok sizes) (h2 : sizes ≠ []) :
    ∃ b hl counts w,
      determineFontStyles blocks = .ok (some b, hl) ∧
      sizeCountsE blocks = .ok counts ∧
      (b, w) ∈ counts ∧
      (∀ p ∈ counts, p.2 ≤ w) ∧
      counts ≠ [] ∧
      (counts = [] → b = if sizes = [] then 10 else statMode sizes) := by
  obtain ⟨b, counts, w, hc, hcne, _, hmem, hall, hdfs⟩ :=
    determineFontStyles_ok_of blocks sizes h1 h2
  exact ⟨b, headingLevelsOf sizes b, counts, w, hdfs, hc, hmem, hall, hcne,
    fun he => absurd he hcne⟩

/-- Witness for C1 on a one-span page of size 10 text. -/
theorem claim_C1_witness :
    ∃ b hl counts w,
      determineFontStyles [mkBlock "Hello" 10 0 10] = .ok (some b, hl) ∧
      sizeCountsE [mkBlock "Hello" 10 0 10] = .ok counts ∧
      (b, w) ∈ counts ∧
      (∀ p ∈ counts, p.2 ≤ w) ∧
      counts ≠ [] ∧
      (counts = [] → b = if ([10] : List ℤ) = [] then 10 else statMode [10]) :=
  claim_C1 [mkBlock "Hello" 10 0 10] [10] (by with_unfolding_all rfl) (by decide)

/-- A text block holding exactly one span whose text is empty. -/
def cexC5Block : Block := ⟨some 0, some [⟨some [⟨some "", some 10, some 0⟩]⟩], some (0, 0, 0, 5)⟩

/-- C5 counterexample: a page whose only span has empty text has no span with
text, yet the profiler does not return (none, empty) and the page is not
skipped: it still contributes its page marker fragment. -/
theorem claim_C5_cex :
    determineFontStyles [cexC5Block] = .ok (some 10, []) ∧
    convertDoc [[cexC5Block]] = .ok ([pageMarker 0], 5) ∧
    pageMarker 0 ≠ "" :=
  ⟨by with_unfolding_all rfl, by with_unfolding_all rfl, pageMarker_ne_empty 0⟩

/-- C5 amended: the profiler returns (none, empty) exactly when the traversal
of the text blocks sees no span at all; a page in that state is skipped with
no fragments, page marker included, and the running state is untouched. -/
theorem claim_C5 (blocks : List Block) :
    (determineFontStyles blocks = .ok (none, []) ↔ allSizesE blocks = .ok []) ∧
    (∀ r, determineFontStyles blocks = .ok r → r.1 = none → r = (none, [])) ∧
    (∀ pn out lb, determineFontStyles blocks = .ok (none, []) →
      processPage pn blocks out lb = .ok (out, lb)) := by
  refine ⟨⟨?_, determineFontStyles_none_of blocks⟩, ?_, ?_⟩
  · intro h
    exact (determineFontStyles_none_inv blocks [] h).2
  · intro r h h1
    obtain ⟨p, q⟩ := r
    cases p with
    | some b => simp at h1
    | none =>
      have := (determineFontStyles_none_inv blocks q h).1
      rw [this]
  · intro pn out lb h
    simp only [processPage, h]

/-- Witness for C5 on the empty page. -/
theorem claim_C5_witness : processPage 0 [] [] 0 = .ok ([], 0) :=
  (claim_C5 []).2.2 0 [] 0 (by with_unfolding_all rfl)

/-! ### Heading level map characterization for C2 -/

theorem sd_count :
    ∀ (L : List ℤ), L.Pairwise (fun a b => b < a) →
      ∀ (i : ℕ) (s : ℤ), L.get? i = some s → (L.filter (fun t => s < t)).length = i := by
  intro L
  induction L with
  | nil =>
    intro _ i s hg
    simp [List.get?] at hg
  | cons x xs ih =>
    intro hp i s hg
    obtain ⟨hx, hxs⟩ := List.pairwise_cons.mp hp
    cases i with
    | zero =>
      have hxs2 : x = s := by
        simpa [List.get?] using hg
      rw [List.filter_cons, ← hxs2]
      have hnil : List.filter (fun t => decide (x < t)) xs = [] :=
        List.filter_eq_nil_iff.mpr (fun t ht => by
          simp only [decide_eq_true_eq]
          exact lt_asymm (hx t ht))
      simp [hnil]
    | succ i =>
      have hg2 : xs.get? i = some s := by
        simpa [List.get?] using hg
      have hmem : s ∈ xs := List.get?_mem hg2
      have hsx : s < x := hx s hmem
      rw [List.filter_cons_of_pos (by simpa using hsx)]
      simp only [List.length_cons, ih hxs i s hg2]

theorem mem_assignLevelsGo :
    ∀ (L : List ℤ) (k : ℕ) (s : ℤ) (lev : ℕ),
      ((s, lev) ∈ assignLevelsGo L k ↔
        ∃ j, L.get? j = some s ∧ lev = k + j ∧ k + j ≤ 3) := by
  intro L
  induction L with
  | nil =>
    intro k s lev
    simp [assignLevelsGo, List.get?]
  | cons x xs ih =>
    intro k s lev
    by_cases h3 : k ≤ 3
    · rw [assignLevelsGo, if_pos h3]
      constructor
      · intro hm
        rcases List.mem_cons.mp hm with he | ht
        · obtain ⟨h1, h2⟩ := Prod.mk.injEq .. ▸ he
          exact ⟨0, by simp [List.get?, h1.symm], by omega, by omega⟩
        · obtain ⟨j, hj1, hj2, hj3⟩ := (ih (k + 1) s lev).mp ht
          exact ⟨j + 1, by simpa [List.get?] using hj1, by omega, by omega⟩
      · rintro ⟨j, hj1, hj2, hj3⟩
        cases j with
        | zero =>
          have hsx : x = s := by simpa [List.get?] using hj1
          have hlev : lev = k := by omega
          rw [hsx.symm, hlev]
          exact List.mem_cons_self _ _
        | succ j =>
          have hj1x : xs.get? j = some s := by simpa [List.get?] using hj1
          refine List.mem_cons_of_mem _ ((ih (k + 1) s lev).mpr ⟨j, hj1x, by omega, by omega⟩)
    · rw [assignLevelsGo, if_neg h3]
      simp only [List.not_mem_nil, false_iff, not_exists, not_and]
      intro j _ h
      omega

theorem headingLevelsOf_mem (sizes : List ℤ) (body : ℤ) (s : ℤ) (lev : ℕ) :
    ((s, lev) ∈ headingLevelsOf sizes body ↔
      s ∈ sizes ∧ body + 1 < s ∧
        ((sizes.dedup).filter (fun t => body + 1 < t ∧ s < t)).length < 3 ∧
        lev = ((sizes.dedup).filter (fun t => body + 1 < t ∧ s < t)).length + 1) := by
  set cands := (sizes.dedup).filter (fun t => body + 1 < t) with hcands
  set L := List.insertionSort (fun a b => b ≤ a) cands with hL
  have hperm : L.Perm cands := List.perm_insertionSort _ _
  have hsorted : List.Pairwise (fun a b => b ≤ a) L := List.sorted_insertionSort _ _
  have hnodup : L.Nodup := hperm.nodup_iff.mpr ((List.nodup_dedup sizes).filter _)
  have hSD : L.Pairwise (fun a b => b < a) :=
    (hsorted.and hnodup).imp (fun hab => lt_of_le_of_ne hab.1 (Ne.symm hab.2))
  have hcount :
      ∀ j s', L.get? j = some s' →
        ((sizes.dedup).filter (fun t => body + 1 < t ∧ s' < t)).length = j := by
    intro j s' hj
    have h1 : (L.filter (fun t => s' < t)).length = j := sd_count L hSD j s' hj
    have h2 : (cands.filter (fun t => s' < t)).Perm (L.filter (fun t => s' < t)) :=
      (hperm.symm).filter _
    have hcomb' :
        (sizes.dedup).filter (fun t => decide (body + 1 < t ∧ s' < t)) =
          cands.filter (fun t => s' < t) := by
      rw [hcands, List.filter_filter]
      refine List.filter_congr (fun t _ => ?_)
      by_cases ha : body + 1 < t <;> by_cases hb : s' < t <;> simp [ha, hb]
    rw [hcomb', h2.length_eq, h1]
  rw [headingLevelsOf, mem_assignLevelsGo]
  constructor
  · rintro ⟨j, hj1, hj2, hj3⟩
    have hmemL : s ∈ L := List.get?_mem hj1
    have hmemc : s ∈ cands := hperm.mem_iff.mp hmemL
    have hm := List.mem_filter.mp hmemc
    have hc := hcount j s hj1
    refine ⟨List.mem_dedup.mp hm.1, by simpa using hm.2, by omega, by omega⟩
  · rintro ⟨hmem, hgt, hlt3, hlev⟩
    have hmemc : s ∈ cands := List.mem_filter.mpr ⟨List.mem_dedup.mpr hmem, by simpa using hgt⟩
    obtain ⟨j, hj⟩ := List.get?_of_mem (hperm.mem_iff.mpr hmemc)
    have hc := hcount j s hj
    exact ⟨j, hj, by omega, by omega⟩

/-- C2: the heading level map contains exactly the at most three largest
distinct rounded sizes strictly above body + 1; levels run 1, 2, 3 downward in
size, the level of a size is one more than the number of larger candidate
sizes, and no level exceeds 3. -/
theorem claim_C2 (blocks : List Block) (sizes : List ℤ) (b : ℤ) (hl : List (ℤ × ℕ))
    (h : determineFontStyles blocks = .ok (some b, hl))
    (h1 : allSizesE blocks = .ok sizes) :
    (∀ p ∈ hl, 1 ≤ p.2 ∧ p.2 ≤ 3) ∧
    (∀ s : ℤ, (∃ lev, (s, lev) ∈ hl) ↔
      (s ∈ sizes ∧ b + 1 < s ∧
        ((sizes.dedup).filter (fun t => b + 1 < t ∧ s < t)).length < 3)) ∧
    (∀ s lev, (s, lev) ∈ hl →
      lev = ((sizes.dedup).filter (fun t => b + 1 < t ∧ s < t)).length + 1) := by
  have hhl : hl = headingLevelsOf sizes b := determineFontStyles_some_inv blocks sizes b hl h h1
  subst hhl
  refine ⟨?_, ?_, ?_⟩
  · rintro ⟨s, lev⟩ hp
    obtain ⟨_, _, hlt, hlev⟩ := (headingLevelsOf_mem sizes b s lev).mp hp
    constructor <;> simp <;> omega
  · intro s
    constructor
    · rintro ⟨lev, hm⟩
      obtain ⟨ha, hb2, hc, _⟩ := (headingLevelsOf_mem sizes b s lev).mp hm
      exact ⟨ha, hb2, hc⟩
    · rintro ⟨ha, hb2, hc⟩
      exact ⟨_, (headingLevelsOf_mem sizes b s _).mpr ⟨ha, hb2, hc, rfl⟩⟩
  · intro s lev hm
    exact ((headingLevelsOf_mem sizes b s lev).mp hm).2.2.2

/-- Witness for C2 on a page with sizes 10, 18 and 24 where size 10 carries the
most characters: the level of size 24 is one. -/
theorem claim_C2_witness :
    (1 : ℕ) =
      ((([10, 18, 24] : List ℤ).dedup).filter
        (fun t => (10 : ℤ) + 1 < t ∧ (24 : ℤ) < t)).length + 1 :=
  (claim_C2 [mkBlock "paragraph" 10 0 10, mkBlock "sub" 18 20 30, mkBlock "t" 24 40 50]
    [10, 18, 24] 10 [(24, 1), (18, 2)]
    (by with_unfolding_all rfl) (by with_unfolding_all rfl)).2.2 24 1 (by decide)

/-! ### C3: the block average size weighting -/

/-- Modelled from the claim wording for comparison: the block average with each
span weighted by its stripped text length instead of its raw length. -/
def specBlockAvgSize (body : ℤ) (b : Block) : ℤ :=
  let parts := (blockTextLines body b).flatten
  let total : ℤ := (parts.map (fun p => p.size * ((pystrip p.text).length : ℤ))).sum
  let cnt : ℕ := (parts.map (fun p => (pystrip p.text).length)).sum
  if 0 < cnt then pythonRound ((total : ℚ) / (cnt : ℚ)) else body

/-- Raw character count of a block, as the code accumulates it. -/
def blockRawLen (body : ℤ) (b : Block) : ℕ :=
  (((blockTextLines body b).flatten).map (fun p => p.text.length)).sum

/-- Size weighted by raw character count, as the code accumulates it. -/
def blockRawWeighted (body : ℤ) (b : Block) : ℤ :=
  (((blockTextLines body b).flatten).map (fun p => p.size * (p.text.length : ℤ))).sum

theorem foldl_accumSpan (ps : List PSpan) :
    ∀ acc : ℤ × ℕ, ps.foldl accumSpan acc =
      (acc.1 + (ps.map (fun p => p.size * (p.text.length : ℤ))).sum,
       acc.2 + (ps.map (fun p => p.text.length)).sum) := by
  induction ps with
  | nil => intro acc; simp
  | cons p ps ih =>
    intro acc
    rw [List.foldl_cons, ih]
    simp [accumSpan]
    constructor <;> ring

theorem foldl_accumSpan_nested (lss : List (List PSpan)) :
    ∀ acc : ℤ × ℕ, lss.foldl (fun a ps => ps.foldl accumSpan a) acc =
      lss.flatten.foldl accumSpan acc := by
  induction lss with
  | nil => intro acc; rfl
  | cons ps lss ih =>
    intro acc
    rw [List.foldl_cons, List.flatten_cons, List.foldl_append, ih]

theorem blockTotals_eq (body : ℤ) (b : Block) :
    blockTotals body b = (blockRawWeighted body b, blockRawLen body b) := by
  rw [blockTotals, foldl_accumSpan_nested, foldl_accumSpan]
  simp [blockRawWeighted, blockRawLen]

/-- A block holding one span of text A at size 10 and one whitespace-only span
at size 20. -/
def cexC3Block : Block :=
  ⟨some 0, some [⟨some [mkSpan "A" 10, mkSpan "   " 20]⟩], some (0, 0, 0, 5)⟩

/-- C3 counterexample: the code weights by raw text length, so the whitespace
span drags the average to round(70/4) = 18, while the claimed stripped-length
weighting would give 10. -/
theorem claim_C3_cex :
    blockAvgSize 10 cexC3Block = 18 ∧ specBlockAvgSize 10 cexC3Block = 10 ∧
    blockAvgSize 10 cexC3Block ≠ specBlockAvgSize 10 cexC3Block :=
  ⟨by with_unfolding_all rfl, by with_unfolding_all rfl, by with_unfolding_all decide⟩

/-- C3 amended: the block average equals the rounded quotient of the sum of
rounded span size times raw text length by the total raw text length, with the
body size as default when the block has no characters at all. -/
theorem claim_C3 (body : ℤ) (b : Block) :
    (blockRawLen body b = 0 → blockAvgSize body b = body) ∧
    (0 < blockRawLen body b →
      blockAvgSize body b =
        pythonRound ((blockRawWeighted body b : ℚ) / (blockRawLen body b : ℚ))) := by
  constructor
  · intro h
    rw [blockAvgSize, blockTotals_eq]
    simp [h]
  · intro h
    rw [blockAvgSize, blockTotals_eq]
    simp only [if_pos h]

/-- Witness for C3 at the concrete two-span block. -/
theorem claim_C3_witness :
    blockAvgSize 10 cexC3Block =
      pythonRound ((blockRawWeighted 10 cexC3Block : ℚ) / (blockRawLen 10 cexC3Block : ℚ)) :=
  (claim_C3 10 cexC3Block).2 (by with_unfolding_all decide)

/-! ### C6: defaults for malformed spans -/

/-- The block as the classifier effectively reads it: every field the
classifier fetches with a default made explicit. -/
def fillDefaults (body : ℤ) (b : Block) : Block :=
  { btype := b.btype
    lines := some ((b.lines.getD []).map (fun l =>
      ⟨some ((l.spans.getD []).map (fun s =>
        ⟨some (s.text.getD ""), some (s.size.getD (body : ℚ)), some (s.flags.getD 0)⟩))⟩))
    bbox := some (b.bbox.getD (0, 0, 0, 0)) }

theorem blockTextLines_fillDefaults (body : ℤ) (b : Block) :
    blockTextLines body (fillDefaults body b) = blockTextLines body b := by
  unfold blockTextLines fillDefaults
  simp only [Option.getD_some, List.map_map]
  apply List.map_congr_left
  intro l _
  simp only [Function.comp_apply, Option.getD_some, List.map_map]
  apply List.map_congr_left
  intro s _
  rfl

theorem processBlock_fillDefaults (pn : ℕ) (body : ℤ) (hl : List (ℤ × ℕ)) (st : CState)
    (i : ℕ) (b : Block) :
    processBlock pn body hl st (i, fillDefaults body b) = processBlock pn body hl st (i, b) := by
  have h1 : (fillDefaults body b).btype = b.btype := rfl
  have h2 := blockTextLines_fillDefaults body b
  have h3 : bTop (fillDefaults body b) = bTop b := rfl
  have h4 : bBottom (fillDefaults body b) = bBottom b := rfl
  have h5 : blockAvgSize body (fillDefaults body b) = blockAvgSize body b := by
    rw [blockAvgSize, blockAvgSize, blockTotals, blockTotals, h2]
  have h6 : headingConcatText body (fillDefaults body b) = headingConcatText body b := by
    rw [headingConcatText, headingConcatText, h2]
  unfold processBlock
  simp only [h1, h2, h3, h4, h5, h6]

theorem pass1Span_ok_fields (s : Span) (z : ℤ) (h : pass1Span s = .ok z) :
    s.text ≠ none ∧ s.size ≠ none ∧ s.flags ≠ none := by
  refine ⟨?_, ?_, ?_⟩ <;> intro hn
  · cases hsz : s.size with
    | none => simp [pass1Span, getKey, hsz, except_bind_error] at h
    | some sz =>
      cases hfl : s.flags with
      | none => simp [pass1Span, getKey, hsz, hfl, except_bind_ok, except_bind_error] at h
      | some fl => simp [pass1Span, getKey, hsz, hfl, hn, except_bind_ok, except_bind_error] at h
  · simp [pass1Span, getKey, hn, except_bind_error] at h
  · cases hsz : s.size with
    | none => simp [pass1Span, getKey, hsz, except_bind_error] at h
    | some sz => simp [pass1Span, getKey, hsz, hn, except_bind_ok, except_bind_error] at h

theorem pass1Spans_ok_mem (ss : List Span) (zs : List ℤ) (h : pass1Spans ss = .ok zs)
    (s : Span) (hmem : s ∈ ss) :
    s.text ≠ none ∧ s.size ≠ none ∧ s.flags ≠ none := by
  induction ss generalizing zs with
  | nil => cases hmem
  | cons s0 ss ih =>
    unfold pass1Spans at h
    cases h1 : pass1Span s0 with
    | error e => rw [h1] at h; exact absurd h (by simp)
    | ok z =>
      rw [h1] at h
      cases h2 : pass1Spans ss with
      | error e => rw [h2] at h; exact absurd h (by simp)
      | ok zs2 =>
        rcases List.mem_cons.mp hmem with he | ht
        · exact he ▸ pass1Span_ok_fields s0 z h1
        · exact ih zs2 h2 ht

theorem pass1Lines_ok_mem (ls : List Line) (zs : List ℤ) (h : pass1Lines ls = .ok zs)
    (l : Line) (hmem : l ∈ ls) :
    l.spans ≠ none ∧ ∀ ss, l.spans = some ss → ∃ z2, pass1Spans ss = .ok z2 := by
  induction ls generalizing zs with
  | nil => cases hmem
  | cons l0 ls ih =>
    unfold pass1Lines at h
    cases h1 : pass1Line l0 with
    | error e => rw [h1] at h; exact absurd h (by simp)
    | ok z1 =>
      rw [h1] at h
      cases h2 : pass1Lines ls with
      | error e => rw [h2] at h; exact absurd h (by simp)
      | ok z2 =>
        rcases List.mem_cons.mp hmem with he | ht
        · subst he
          cases hs : l.spans with
          | none => rw [pass1Line, hs] at h1; exact absurd h1 (by simp)
          | some ss =>
            rw [pass1Line, hs] at h1
            have h1x : pass1Spans ss = Except.ok z1 := h1
            exact ⟨by simp, fun ss2 hss2 => by
              injection hss2 with hss2
              exact ⟨z1, hss2 ▸ h1x⟩⟩
        · exact ih z2 h2 ht

theorem pass1Block_ok_fields (b : Block) (zs : List ℤ) (h : pass1Block b = .ok zs) :
    b.btype ≠ none ∧ (b.btype = some 0 → b.lines ≠ none ∧
      ∀ ls, b.lines = some ls → ∃ z2, pass1Lines ls = .ok z2) := by
  cases ht : b.btype with
  | none => rw [pass1Block, ht] at h; exact absurd h (by simp)
  | some t =>
    refine ⟨by simp [ht], fun h0 => ?_⟩
    injection h0 with h0
    simp only [pass1Block, ht] at h
    rw [if_pos h0] at h
    cases hls : b.lines with
    | none => rw [hls] at h; exact absurd h (by simp)
    | some ls =>
      rw [hls] at h
      have hx : pass1Lines ls = Except.ok zs := h
      exact ⟨by simp, fun ls2 hls2 => by
        injection hls2 with hls2
        exact ⟨zs, hls2 ▸ hx⟩⟩

theorem allSizesE_ok_mem (blocks : List Block) (zs : List ℤ) (h : allSizesE blocks = .ok zs)
    (b : Block) (hmem : b ∈ blocks) : ∃ zb, pass1Block b = .ok zb := by
  induction blocks generalizing zs with
  | nil => cases hmem
  | cons b0 bs ih =>
    unfold allSizesE at h
    cases h1 : pass1Block b0 with
    | error e => rw [h1] at h; exact absurd h (by simp)
    | ok z1 =>
      rw [h1] at h
      cases h2 : allSizesE bs with
      | error e => rw [h2] at h; exact absurd h (by simp)
      | ok z2 =>
        rcases List.mem_cons.mp hmem with he | ht
        · exact ⟨z1, he ▸ h1⟩
        · exact ih z2 h2 ht

theorem determineFontStyles_ok_allSizes (blocks : List Block)
    (r : Option ℤ × List (ℤ × ℕ)) (h : determineFontStyles blocks = .ok r)
    (hne : blocks ≠ []) : ∃ sizes, allSizesE blocks = .ok sizes := by
  cases h1 : allSizesE blocks with
  | ok s => exact ⟨s, rfl⟩
  | error e => simp [determineFontStyles, if_neg hne, h1] at h

/-- C6 amended: the Block Classifier reads every span field through an explicit
default (empty text, body size, flags zero hence non-bold) and processes the
block the same way, never aborting; the Style Profiler, by contrast, indexes
the fields directly and only succeeds when every span field it visits is
present, so a malformed span aborts the page profile instead of being
defaulted. -/
theorem claim_C6 :
    (∀ (pn : ℕ) (body : ℤ) (hl : List (ℤ × ℕ)) (st : CState) (i : ℕ) (b : Block),
      processBlock pn body hl st (i, fillDefaults body b) = processBlock pn body hl st (i, b)) ∧
    (∀ (blocks : List Block) (r : Option ℤ × List (ℤ × ℕ)) (bk : Block)
      (ls : List Line) (l : Line) (ss : List Span) (s : Span),
      determineFontStyles blocks = .ok r → bk ∈ blocks → bk.btype = some 0 →
      bk.lines = some ls → l ∈ ls → l.spans = some ss → s ∈ ss →
      s.text ≠ none ∧ s.size ≠ none ∧ s.flags ≠ none) := by
  refine ⟨processBlock_fillDefaults, ?_⟩
  intro blocks r bk ls l ss s h hmem h0 hls hlm hss hsm
  have hne : blocks ≠ [] := by
    intro he
    rw [he] at hmem
    cases hmem
  obtain ⟨sizes, hsz⟩ := determineFontStyles_ok_allSizes blocks r h hne
  obtain ⟨zb, hzb⟩ := allSizesE_ok_mem blocks sizes hsz bk hmem
  obtain ⟨_, hlines⟩ := pass1Block_ok_fields bk zb hzb
  obtain ⟨_, hlget⟩ := hlines h0
  obtain ⟨z2, hz2⟩ := hlget ls hls
  obtain ⟨_, hsget⟩ := pass1Lines_ok_mem ls z2 hz2 l hlm
  obtain ⟨z3, hz3⟩ := hsget ss hss
  exact pass1Spans_ok_mem ss z3 hz3 s hsm

/-- A block whose only span is missing its size entry. -/
def cexC6Block : Block := ⟨some 0, some [⟨some [⟨some "A", none, some 0⟩]⟩], some (0, 0, 0, 5)⟩

/-- C6 counterexample: on a span with no size entry the Style Profiler raises
instead of substituting the body size, while the Block Classifier defaults the
size to the body size and carries on with the block. -/
theorem claim_C6_cex :
    determineFontStyles [cexC6Block] = .error () ∧
    processBlock 0 10 [] ⟨[pageMarker 0], "", 0⟩ (0, cexC6Block) = ⟨[pageMarker 0], "A", 5⟩ :=
  ⟨by with_unfolding_all rfl, by with_unfolding_all rfl⟩

/-- Witness for C6 at a concrete well-formed page. -/
theorem claim_C6_witness :
    (mkSpan "Hello" 10).text ≠ none ∧ (mkSpan "Hello" 10).size ≠ none ∧
      (mkSpan "Hello" 10).flags ≠ none :=
  claim_C6.2 [mkBlock "Hello" 10 0 10] (some 10, []) (mkBlock "Hello" 10 0 10)
    [⟨some [mkSpan "Hello" 10]⟩] ⟨some [mkSpan "Hello" 10]⟩ [mkSpan "Hello" 10]
    (mkSpan "Hello" 10) (by with_unfolding_all rfl) (by decide) rfl rfl (by decide) rfl
    (by decide)

/-! ### C9: bold reassembly -/

/-- Modelled from the claim wording for comparison: wrap a bold span unless the
text emitted so far ends with the marker and the span text does not begin with
one. -/
def specBoldStep (acc : String) (sp : PSpan) : String :=
  if sp.bold then
    if pyEndsWith acc "**" && !pyStartsWith sp.text "**" then acc ++ sp.text
    else acc ++ "**" ++ sp.text ++ "**"
  else acc ++ sp.text

/-- The line assembly the claim describes, span by span. -/
def specAssembleLine (ps : List PSpan) : String := ps.foldl specBoldStep ""

/-- C9 counterexample: on a single bold span whose text itself starts with the
marker, the code emits it unwrapped, while the claimed rule (no previous bold
close, so wrap) would double-wrap it. -/
theorem claim_C9_cex :
    assembleLine [⟨"**A", 0, true⟩] = "**A" ∧
    specAssembleLine [⟨"**A", 0, true⟩] = "****A**" ∧
    assembleLine [⟨"**A", 0, true⟩] ≠ specAssembleLine [⟨"**A", 0, true⟩] :=
  ⟨by with_unfolding_all rfl, by with_unfolding_all rfl, by with_unfolding_all decide⟩

/-- C9 amended: a bold span is wrapped unless the text emitted so far already
ends with a bold close OR the span text itself begins with one; the two
round-trip examples of the claim hold as stated. -/
theorem claim_C9 :
    assembleLine [⟨"Hello ", 0, false⟩, ⟨"World", 0, true⟩] = "Hello **World**" ∧
    assembleLine [⟨"A", 0, true⟩, ⟨"B", 0, true⟩] = "**A**B" ∧
    ("**A**B" : String) ≠ "**A****B**" ∧
    (∀ (acc : String) (sp : PSpan), sp.bold = true →
      (pyEndsWith acc "**" = true ∨ pyStartsWith sp.text "**" = true) →
      boldStep acc sp = acc ++ sp.text) ∧
    (∀ (acc : String) (sp : PSpan), sp.bold = true →
      pyEndsWith acc "**" = false → pyStartsWith sp.text "**" = false →
      boldStep acc sp = acc ++ "**" ++ sp.text ++ "**") ∧
    (∀ (acc : String) (sp : PSpan), sp.bold = false → boldStep acc sp = acc ++ sp.text) := by
  refine ⟨by with_unfolding_all rfl, by with_unfolding_all rfl, by with_unfolding_all decide,
    ?_, ?_, ?_⟩
  · intro acc sp hb hor
    unfold boldStep
    rcases hor with h | h <;> simp [hb, h]
  · intro acc sp hb h1 h2
    unfold boldStep
    simp [hb, h1, h2]
  · intro acc sp hb
    unfold boldStep
    simp [hb]

/-- Witness for C9: an adjacent bold span after a close marker is not wrapped. -/
theorem claim_C9_witness : boldStep "x**" ⟨"B", 0, true⟩ = "x**" ++ "B" :=
  claim_C9.2.2.2.1 "x**" ⟨"B", 0, true⟩ rfl (Or.inl (by with_unfolding_all rfl))

/-! ### Fragment bookkeeping helpers -/

theorem flushPara_eq (st : CState) :
    flushPara st = ⟨st.out ++ flushFrags st.para, "", st.lastBottom⟩ := by
  obtain ⟨o, p, lb⟩ := st
  unfold flushPara flushFrags
  by_cases h : p = ""
  · simp [h]
  · simp [h]

theorem flushFrags_ne (p : String) : ∀ f ∈ flushFrags p, f ≠ "" := by
  intro f hf
  unfold flushFrags at hf
  by_cases h : p = ""
  · rw [if_pos h] at hf
    cases hf
  · rw [if_neg h] at hf
    have he := List.mem_singleton.mp hf
    rw [he]
    exact append_newline_ne_empty _

theorem lineStep_out (st : CState) (ps : List PSpan) :
    ∃ new, (lineStep st ps).out = st.out ++ new ∧ ∀ f ∈ new, f ≠ "" := by
  simp only [lineStep]
  by_cases hl : isListItem (lineRaw ps)
  · rw [if_pos hl]
    refine ⟨flushFrags st.para ++ [pystrip (assembleLine ps) ++ "\n"], ?_, ?_⟩
    · simp [flushPara_eq, List.append_assoc]
    · intro f hf
      rcases List.mem_append.mp hf with h | h
      · exact flushFrags_ne _ f h
      · rw [List.mem_singleton.mp h]
        exact append_newline_ne_empty _
  · rw [if_neg hl]
    by_cases hr : pystrip (lineRaw ps) ≠ ""
    · rw [if_pos hr]
      exact ⟨[], by simp, by simp⟩
    · rw [if_neg hr]
      exact ⟨[], by simp, by simp⟩

theorem foldl_lineStep_out (lss : List (List PSpan)) :
    ∀ st : CState, ∃ new, (lss.foldl lineStep st).out = st.out ++ new ∧ ∀ f ∈ new, f ≠ "" := by
  induction lss with
  | nil => intro st; exact ⟨[], by simp, by simp⟩
  | cons ps lss ih =>
    intro st
    obtain ⟨n1, h1, hne1⟩ := lineStep_out st ps
    obtain ⟨n2, h2, hne2⟩ := ih (lineStep st ps)
    refine ⟨n1 ++ n2, ?_, ?_⟩
    · rw [List.foldl_cons, h2, h1, List.append_assoc]
    · intro f hf
      rcases List.mem_append.mp hf with h | h
      exacts [hne1 f h, hne2 f h]

theorem gapBreak_eq_of (pn i : ℕ) (body : ℤ) (top : ℚ) (st : CState)
    (hfirst : 0 < pn ∨ 0 < i)
    (hgap : (body : ℚ) * (7 / 10) < top - st.lastBottom)
    (hlast : st.out.getLast? ≠ some "") :
    gapBreak pn i body top st = ⟨st.out ++ flushFrags st.para ++ [""], "", st.lastBottom⟩ := by
  unfold gapBreak
  rw [if_pos hfirst, if_pos ⟨hgap, hlast⟩]
  simp [flushPara_eq]

theorem gapBreak_skip_first (body : ℤ) (top : ℚ) (st : CState) :
    gapBreak 0 0 body top st = st := by
  unfold gapBreak
  simp

/-- The fragments a text block appends after the gap break step are never
blank: they are heading lines, list lines or paragraph flushes. -/
theorem processBlock_out_after (pn : ℕ) (body : ℤ) (hl : List (ℤ × ℕ)) (st : CState)
    (i : ℕ) (b : Block) (hbt : b.btype = some 0) :
    ∃ rest, (processBlock pn body hl st (i, b)).out =
      (gapBreak pn i body (bTop b) st).out ++ rest ∧ ∀ f ∈ rest, f ≠ "" := by
  have hcond : ¬((i, b).2.btype ≠ some 0) := by simp [hbt]
  simp only [processBlock, if_neg hcond]
  cases hlk : lookupKey hl (blockAvgSize body b) with
  | none =>
    obtain ⟨new, hn, hne⟩ := foldl_lineStep_out (blockTextLines body b)
      (gapBreak pn i body (bTop b) st)
    exact ⟨new, by simp [hn], hne⟩
  | some level =>
    dsimp only
    by_cases hht : headingConcatText body b ≠ ""
    · rw [if_pos hht]
      refine ⟨flushFrags (gapBreak pn i body (bTop b) st).para ++
        [hashes level ++ " " ++ headingConcatText body b ++ "\n"], ?_, ?_⟩
      · simp [flushPara_eq, List.append_assoc]
      · intro f hf
        rcases List.mem_append.mp hf with h | h
        · exact flushFrags_ne _ f h
        · rw [List.mem_singleton.mp h]
          exact append_newline_ne_empty _
    · rw [if_neg hht]
      obtain ⟨new, hn, hne⟩ := foldl_lineStep_out (blockTextLines body b)
        (gapBreak pn i body (bTop b) st)
      exact ⟨new, by simp [hn], hne⟩

/-! ### C4: the vertical gap break -/

/-- The classifier state just before the third block of the C4 scenario: the
previous gap break has emitted a blank fragment last, and the second block has
opened the paragraph Y. -/
def cexC4State : CState := ⟨[pageMarker 0, "X\n", ""], "Y", 110⟩

/-- The third block of the C4 scenario: 90 points below the previous bottom. -/
def cexC4Block : Block := mkBlock "Z" 10 200 210

/-- C4 counterexample: the vertical gap of 90 far exceeds bodySize times 0.7,
and a paragraph is open, yet because the most recent fragment is blank the
code neither flushes the paragraph nor appends a blank fragment: the block
text is merged into the open paragraph instead. -/
theorem claim_C4_cex :
    (10 : ℚ) * (7 / 10) < bTop cexC4Block - cexC4State.lastBottom ∧
    cexC4State.para ≠ "" ∧
    processBlock 0 10 [] cexC4State (2, cexC4Block) =
      ⟨[pageMarker 0, "X\n", ""], "Y Z", 210⟩ :=
  ⟨by with_unfolding_all decide, by decide, by with_unfolding_all rfl⟩

/-- C4 amended: after the very first block of the document, a gap above
bodySize times 0.7 flushes any open paragraph and appends exactly one blank
fragment before the block content, PROVIDED the most recently emitted fragment
is not itself blank; the very first block of the document never produces a
blank fragment. -/
theorem claim_C4 :
    (∀ (pn : ℕ) (body : ℤ) (hl : List (ℤ × ℕ)) (st : CState) (i : ℕ) (b : Block),
      b.btype = some 0 → (0 < pn ∨ 0 < i) →
      (body : ℚ) * (7 / 10) < bTop b - st.lastBottom →
      st.out.getLast? ≠ some "" →
      ∃ rest, (processBlock pn body hl st (i, b)).out =
          st.out ++ flushFrags st.para ++ [""] ++ rest ∧ "" ∉ rest) ∧
    (∀ (body : ℤ) (hl : List (ℤ × ℕ)) (st : CState) (b : Block),
      ∃ new, (processBlock 0 body hl st (0, b)).out = st.out ++ new ∧ "" ∉ new) := by
  constructor
  · intro pn body hl st i b hbt hfirst hgap hlast
    obtain ⟨rest, hr, hne⟩ := processBlock_out_after pn body hl st i b hbt
    rw [gapBreak_eq_of pn i body (bTop b) st hfirst hgap hlast] at hr
    refine ⟨rest, ?_, fun hmem => hne "" hmem rfl⟩
    rw [hr]
  · intro body hl st b
    by_cases hbt : b.btype = some 0
    · obtain ⟨rest, hr, hne⟩ := processBlock_out_after 0 body hl st 0 b hbt
      rw [gapBreak_skip_first] at hr
      exact ⟨rest, hr, fun hmem => hne "" hmem rfl⟩
    · have hpb : processBlock 0 body hl st (0, b) = st := by
        have hcond : (0, b).2.btype ≠ some 0 := hbt
        simp only [processBlock, if_pos hcond]
      exact ⟨[], by rw [hpb]; simp, by simp⟩

/-- Witness for C4 at a concrete block 100 points below its predecessor. -/
theorem claim_C4_witness :
    ∃ rest, (processBlock 0 10 [] ⟨[pageMarker 0], "P", 100⟩ (1, mkBlock "Q" 10 200 210)).out =
        [pageMarker 0] ++ flushFrags "P" ++ [""] ++ rest ∧ "" ∉ rest :=
  claim_C4.1 0 10 [] ⟨[pageMarker 0], "P", 100⟩ 1 (mkBlock "Q" 10 200 210) rfl
    (by decide) (by with_unfolding_all decide) (by with_unfolding_all decide)

/-! ### C8: empty heading text falls through -/

theorem isListItem_all_ws (s : String) (h : ∀ c ∈ s.data, pyWs c = true) :
    isListItem s = false := by
  unfold isListItem
  have hd : s.data.dropWhile pyWs = [] := List.dropWhile_eq_nil_iff.mpr h
  rw [hd]

theorem lineStep_all_ws (st : CState) (ps : List PSpan)
    (h : ∀ c ∈ (lineRaw ps).data, pyWs c = true) : lineStep st ps = st := by
  have h1 : isListItem (lineRaw ps) = false := isListItem_all_ws _ h
  have h2 : pystrip (lineRaw ps) = "" := (pystrip_eq_empty_iff _).mpr h
  simp [lineStep, h1, h2]

theorem headingConcat_empty_lines (body : ℤ) (b : Block)
    (h : headingConcatText body b = "") :
    ∀ ps ∈ blockTextLines body b, ∀ c ∈ (lineRaw ps).data, pyWs c = true := by
  intro ps hps c hc
  have hall := (pystrip_eq_empty_iff _).mp h
  rw [lineRaw, join_data] at hc
  obtain ⟨ld, hld, hcld⟩ := List.mem_flatten.mp hc
  obtain ⟨t, ht, hteq⟩ := List.mem_map.mp hld
  obtain ⟨p, hp, hpeq⟩ := List.mem_map.mp ht
  apply hall
  rw [join_data]
  apply List.mem_flatten.mpr
  refine ⟨t.data, ?_, hteq ▸ hcld⟩
  refine List.mem_map.mpr ⟨t, ?_, rfl⟩
  refine List.mem_map.mpr ⟨p, ?_, hpeq⟩
  exact List.mem_flatten.mpr ⟨ps, hps, hp⟩

theorem foldl_lineStep_all_ws (body : ℤ) (b : Block) (h : headingConcatText body b = "") :
    ∀ st, (blockTextLines body b).foldl lineStep st = st := by
  have hws := headingConcat_empty_lines body b h
  revert hws
  generalize blockTextLines body b = lss
  intro hws
  induction lss with
  | nil => intro st; rfl
  | cons ps lss ih =>
    intro st
    rw [List.foldl_cons, lineStep_all_ws st ps (hws ps (List.mem_cons_self _ _))]
    exact ih (fun q hq c hc => hws q (List.mem_cons_of_mem _ hq) c hc) st

/-- C8: a block whose average size has a heading level but whose concatenated
text strips to empty is never emitted as a heading: processing falls through
to the per-line list and paragraph handling, and since every line of such a
block is whitespace-only that handling changes nothing beyond the gap break
and the bottom edge update. -/
theorem claim_C8 (pn : ℕ) (body : ℤ) (hl : List (ℤ × ℕ)) (st : CState) (i : ℕ) (b : Block)
    (level : ℕ) (hbt : b.btype = some 0)
    (hlk : lookupKey hl (blockAvgSize body b) = some level)
    (hht : headingConcatText body b = "") :
    processBlock pn body hl st (i, b) =
      { (blockTextLines body b).foldl lineStep (gapBreak pn i body (bTop b) st) with
          lastBottom := bBottom b } ∧
    processBlock pn body hl st (i, b) =
      { gapBreak pn i body (bTop b) st with lastBottom := bBottom b } := by
  have hcond : ¬((i, b).2.btype ≠ some 0) := by simp [hbt]
  have hfold := foldl_lineStep_all_ws body b hht
  constructor
  · simp only [processBlock, if_neg hcond, hlk]
    rw [if_neg (by simp [hht])]
  · simp only [processBlock, if_neg hcond, hlk]
    rw [if_neg (by simp [hht]), hfold]

/-- Witness for C8: a whitespace-only block whose size matches heading level
one only updates the bottom edge. -/
theorem claim_C8_witness :
    processBlock 1 10 [(20, 1)] ⟨[pageMarker 0], "p", 50⟩ (0, mkBlock "  " 20 0 5) =
      { gapBreak 1 0 10 (bTop (mkBlock "  " 20 0 5)) ⟨[pageMarker 0], "p", 50⟩ with
          lastBottom := bBottom (mkBlock "  " 20 0 5) } :=
  (claim_C8 1 10 [(20, 1)] ⟨[pageMarker 0], "p", 50⟩ 0 (mkBlock "  " 20 0 5) 1 rfl
    (by with_unfolding_all rfl) (by with_unfolding_all rfl)).2

/-! ### C7: single open paragraph, flushed by headings, list items and page end -/

theorem flushPara_para (st : CState) : (flushPara st).para = "" := by
  rw [flushPara_eq]

/-- C7: a list line flushes the open paragraph before its own fragment and
leaves the accumulator empty; a heading block flushes the paragraph open after
the gap break before the heading fragment and leaves the accumulator empty;
and on every processed page the returned output is exactly the block fold
output, started from an empty accumulator right after the page marker,
followed by the flush of whatever paragraph that fold leaves open, so the end
of the page emits the open paragraph as its own final fragment.  The last
conjunct states that once a page has produced its fragments and bottom edge,
the remaining pages are processed from those two values alone: no paragraph
accumulator crosses the page boundary. -/
theorem claim_C7 :
    (∀ (st : CState) (ps : List PSpan), isListItem (lineRaw ps) = true →
      lineStep st ps =
        ⟨st.out ++ flushFrags st.para ++ [pystrip (assembleLine ps) ++ "\n"], "",
          st.lastBottom⟩) ∧
    (∀ (pn : ℕ) (body : ℤ) (hl : List (ℤ × ℕ)) (st : CState) (i : ℕ) (b : Block) (level : ℕ),
      b.btype = some 0 →
      lookupKey hl (blockAvgSize body b) = some level →
      headingConcatText body b ≠ "" →
      processBlock pn body hl st (i, b) =
        ⟨(gapBreak pn i body (bTop b) st).out ++
            flushFrags (gapBreak pn i body (bTop b) st).para ++
            [hashes level ++ " " ++ headingConcatText body b ++ "\n"], "", bBottom b⟩) ∧
    (∀ (pn : ℕ) (blocks : List Block) (out : List String) (lb : ℚ) (body : ℤ)
      (hl : List (ℤ × ℕ)) (res : List String × ℚ),
      determineFontStyles blocks = .ok (some body, hl) →
      processPage pn blocks out lb = .ok res →
      res = ((blocks.enum.foldl (processBlock pn body hl)
                ⟨out ++ [pageMarker pn], "", lb⟩).out ++
              flushFrags (blocks.enum.foldl (processBlock pn body hl)
                ⟨out ++ [pageMarker pn], "", lb⟩).para,
             (blocks.enum.foldl (processBlock pn body hl)
                ⟨out ++ [pageMarker pn], "", lb⟩).lastBottom)) ∧
    (∀ (p : List Block) (ps : List (List Block)) (pn : ℕ) (out : List String) (lb : ℚ)
      (o1 : List String) (l1 : ℚ), processPage pn p out lb = .ok (o1, l1) →
      convertPages (p :: ps) pn out lb = convertPages ps (pn + 1) o1 l1) := by
  refine ⟨?_, ?_, ?_, ?_⟩
  · intro st ps h
    simp only [lineStep, h, if_true, flushPara_eq]
  · intro pn body hl st i b level hbt hlk hht
    have hcond : ¬((i, b).2.btype ≠ some 0) := by simp [hbt]
    simp only [processBlock, if_neg hcond, hlk]
    rw [if_pos hht]
    simp only [flushPara_eq, List.append_assoc]
  · intro pn blocks out lb body hl res hdfs hpp
    simp only [processPage, hdfs, Except.ok.injEq] at hpp
    rw [← hpp, flushPara_eq]
  · intro p ps pn out lb o1 l1 h
    simp only [convertPages, h]

/-- Witness for C7: a concrete list line with an open paragraph, and a concrete
page whose last block leaves the paragraph X open, flushed at page end. -/
theorem claim_C7_witness :
    lineStep ⟨[pageMarker 0], "para", 3⟩ [⟨"* x", 0, false⟩] =
      ⟨[pageMarker 0] ++ flushFrags "para" ++ [pystrip (assembleLine [⟨"* x", 0, false⟩]) ++ "\n"],
        "", 3⟩ ∧
    (([pageMarker 0, "X\n"], (10 : ℚ)) : List String × ℚ) =
      (([mkBlock "X" 10 0 10].enum.foldl (processBlock 0 10 [])
          ⟨[] ++ [pageMarker 0], "", 0⟩).out ++
        flushFrags ([mkBlock "X" 10 0 10].enum.foldl (processBlock 0 10 [])
          ⟨[] ++ [pageMarker 0], "", 0⟩).para,
       ([mkBlock "X" 10 0 10].enum.foldl (processBlock 0 10 [])
          ⟨[] ++ [pageMarker 0], "", 0⟩).lastBottom) :=
  ⟨claim_C7.1 ⟨[pageMarker 0], "para", 3⟩ [⟨"* x", 0, false⟩] (by with_unfolding_all rfl),
    claim_C7.2.2.1 0 [mkBlock "X" 10 0 10] [] 0 10 [] ([pageMarker 0, "X\n"], 10)
      (by with_unfolding_all rfl) (by with_unfolding_all rfl)⟩

/-! ### C10: the gap break never yields two adjacent blank fragments -/

/-- No fragment equal to the empty string directly follows another one. -/
def noTwoBlanks (l : List String) : Prop :=
  List.Chain' (fun a b => a = "" → b ≠ "") l

theorem noTwoBlanks_append_ne (l : List String) (x : String) (hl : noTwoBlanks l)
    (hx : x ≠ "") : noTwoBlanks (l ++ [x]) := by
  rw [noTwoBlanks, List.chain'_append]
  refine ⟨hl, List.chain'_singleton x, ?_⟩
  intro a _ y hy
  have hyx : x = y := by simpa using hy
  rw [← hyx]
  intro _
  exact hx

theorem noTwoBlanks_append_blank (l : List String) (hl : noTwoBlanks l)
    (hlast : l.getLast? ≠ some "") : noTwoBlanks (l ++ [""]) := by
  rw [noTwoBlanks, List.chain'_append]
  refine ⟨hl, List.chain'_singleton _, ?_⟩
  intro a ha y hy
  have hy0 : "" = y := by simpa using hy
  subst hy0
  intro hae
  have hsome : l.getLast? = some a := by simpa using ha
  exact absurd (by rw [hsome, hae]) (fun he => hlast he)

theorem noTwoBlanks_append_list (l new : List String) (hl : noTwoBlanks l)
    (hne : ∀ f ∈ new, f ≠ "") : noTwoBlanks (l ++ new) := by
  induction new generalizing l with
  | nil => simpa using hl
  | cons f new ih =>
    rw [List.append_cons]
    exact ih (l ++ [f]) (noTwoBlanks_append_ne l f hl (hne f (List.mem_cons_self _ _)))
      (fun g hg => hne g (List.mem_cons_of_mem _ hg))

theorem flushPara_noTwoBlanks (st : CState) (h : noTwoBlanks st.out) :
    noTwoBlanks (flushPara st).out := by
  rw [flushPara_eq]
  exact noTwoBlanks_append_list _ _ h (flushFrags_ne _)

theorem gapBreak_noTwoBlanks (pn i : ℕ) (body : ℤ) (top : ℚ) (st : CState)
    (h : noTwoBlanks st.out) : noTwoBlanks (gapBreak pn i body top st).out := by
  unfold gapBreak
  by_cases h1 : (0 < pn ∨ 0 < i)
  · rw [if_pos h1]
    by_cases h2 : ((body : ℚ) * (7 / 10) < top - st.lastBottom ∧ st.out.getLast? ≠ some "")
    · rw [if_pos h2]
      apply noTwoBlanks_append_blank
      · exact flushPara_noTwoBlanks st h
      · rw [flushPara_eq]
        by_cases hp : st.para = ""
        · rw [flushFrags, if_pos hp, List.append_nil]
          exact h2.2
        · rw [flushFrags, if_neg hp, List.getLast?_concat]
          intro hcontra
          injection hcontra with hcontra
          exact append_newline_ne_empty _ hcontra
    · rw [if_neg h2]
      exact h
  · rw [if_neg h1]
    exact h

theorem processBlock_noTwoBlanks (pn : ℕ) (body : ℤ) (hl : List (ℤ × ℕ)) (st : CState)
    (ib : ℕ × Block) (h : noTwoBlanks st.out) :
    noTwoBlanks (processBlock pn body hl st ib).out := by
  obtain ⟨i, b⟩ := ib
  by_cases hbt : b.btype = some 0
  · obtain ⟨rest, hr, hne⟩ := processBlock_out_after pn body hl st i b hbt
    rw [hr]
    exact noTwoBlanks_append_list _ _ (gapBreak_noTwoBlanks _ _ _ _ _ h) hne
  · have hid : processBlock pn body hl st (i, b) = st := by
      simp only [processBlock, if_pos (show (i, b).2.btype ≠ some 0 from hbt)]
    rw [hid]
    exact h

theorem foldl_processBlock_noTwoBlanks (pn : ℕ) (body : ℤ) (hl : List (ℤ × ℕ))
    (l : List (ℕ × Block)) :
    ∀ st : CState, noTwoBlanks st.out →
      noTwoBlanks (l.foldl (processBlock pn body hl) st).out := by
  induction l with
  | nil => intro st h; exact h
  | cons ib l ih =>
    intro st h
    rw [List.foldl_cons]
    exact ih _ (processBlock_noTwoBlanks _ _ _ _ _ h)

theorem processPage_noTwoBlanks (pn : ℕ) (blocks : List Block) (out : List String) (lb : ℚ)
    (res : List String × ℚ) (h : processPage pn blocks out lb = .ok res)
    (hn : noTwoBlanks out) : noTwoBlanks res.1 := by
  cases hd : determineFontStyles blocks with
  | error e =>
    simp only [processPage, hd] at h
    simp at h
  | ok r =>
    obtain ⟨bo, hl⟩ := r
    cases bo with
    | none =>
      simp only [processPage, hd, Except.ok.injEq] at h
      rw [← h]
      exact hn
    | some body =>
      simp only [processPage, hd, Except.ok.injEq] at h
      rw [← h]
      apply flushPara_noTwoBlanks
      apply foldl_processBlock_noTwoBlanks
      exact noTwoBlanks_append_ne out (pageMarker pn) hn (pageMarker_ne_empty pn)

theorem convertPages_noTwoBlanks :
    ∀ (pages : List (List Block)) (pn : ℕ) (out : List String) (lb : ℚ)
      (res : List String × ℚ), convertPages pages pn out lb = .ok res →
      noTwoBlanks out → noTwoBlanks res.1 := by
  intro pages
  induction pages with
  | nil =>
    intro pn out lb res h hn
    simp only [convertPages, Except.ok.injEq] at h
    rw [← h]
    exact hn
  | cons p ps ih =>
    intro pn out lb res h hn
    unfold convertPages at h
    cases hp : processPage pn p out lb with
    | error e => rw [hp] at h; exact absurd h (by simp)
    | ok r =>
      rw [hp] at h
      obtain ⟨o, l⟩ := r
      exact ih (pn + 1) o l res h (processPage_noTwoBlanks pn p out lb (o, l) hp hn)

/-- C10: over a whole document, the produced fragment sequence never holds two
adjacent blank fragments: the gap break is suppressed whenever the most recent
fragment is already blank, and every other fragment is non-empty. -/
theorem claim_C10 (pages : List (List Block)) (out : List String) (lb : ℚ)
    (h : convertDoc pages = .ok (out, lb)) : noTwoBlanks out :=
  convertPages_noTwoBlanks pages 0 [] 0 (out, lb) h List.chain'_nil

/-- Witness for C10 on a one-page, one-block document. -/
theorem claim_C10_witness : noTwoBlanks [pageMarker 0, "X\n"] :=
  claim_C10 [[mkBlock "X" 10 0 10]] [pageMarker 0, "X\n"] 10 (by with_unfolding_all rfl)

end PdfToMd
